import Mathlib

/-!
# Location tracker hub

A shallow embedding of `main.go`: the subscription resolver
(`Hub.getClientChannels`), the ingestion dispatcher (`handleLocationUpdate`)
and the three cases of the coordinator loop `Hub.run`, followed by the
properties established about them.

Modelling decisions.

* A `*Client` pointer is a `Client` record. The fields of a Go client are
  never written after `serveWs` builds it, so the record (with its connection
  handle `conn`) is the identity of the client. The only mutable part, the
  channel `send`, lives in the hub state as a map from clients to channels.
* `map[string]map[*Client]bool` is a function from topic names to optional
  subscriber lists. The outer map is only read, written and deleted at a key,
  never ranged over. The inner map is ranged over by the broadcast case, so it
  is a list, whose order stands for the order the Go runtime picks; its keys
  are pairwise distinct (`List.Nodup`).
* A buffered channel is its pending frames plus a closed flag. Closing a closed
  channel and sending on a closed channel panic in Go; the hub goroutine has no
  `recover`, so a panic ends the run: operations return `Except Panic`.
* `float64` coordinates are carried through the hub untouched and are modelled
  as rationals. `int` values are unbounded integers (no arithmetic is done on
  them).
-/

namespace LocationTracker

/-! ## Data model -/

/-- LocationUpdate represents a rider location update. -/
structure LocationUpdate where
  RiderID : Int
  Latitude : Rat
  Longitude : Rat
  PackageID : Option Int
  LastUpdate : String
deriving DecidableEq

/-- Client represents a WebSocket client connection (the immutable fields). -/
structure Client where
  conn : Nat
  userID : Int
  userRole : String
  merchantID : Option Int
  packageID : Option Int
deriving DecidableEq

/-- BroadcastMessage represents a message to be broadcasted. -/
structure BroadcastMessage where
  Channel : String
  Event : String
  Data : LocationUpdate
deriving DecidableEq

/-- The bytes produced by `json.Marshal` of the object with keys `event` and
`data`, kept as the pair that determines them. -/
structure Frame where
  event : String
  data : LocationUpdate
deriving DecidableEq

/-- A buffered channel `chan []byte`: pending frames, oldest first, and whether
`close` has been called on it. -/
structure Chan where
  buf : List Frame
  closed : Bool
deriving DecidableEq

/-- Capacity of a client's `send` channel: `make(chan []byte, 256)` in `serveWs`. -/
def sendCap : Nat := 256

/-- The two run-time panics the coordinator loop can raise. -/
inductive Panic where
  | closeOfClosedChannel
  | sendOnClosedChannel
deriving DecidableEq

/-- State owned by the coordinator: the registry `h.clients` and the `send`
channel of every client. -/
structure HubState where
  clients : String → Option (List Client)
  send : Client → Chan

/-- Operations the coordinator loop takes from its mailboxes, plus `receive`,
a read of one frame from a client's `send` channel by its `writePump`. -/
inductive Op where
  | register (client : Client)
  | unregister (client : Client)
  | broadcast (message : BroadcastMessage)
  | receive (client : Client)

/-! ## `strconv.Itoa` -/

/-- The character of a decimal digit: `'0' + d`. -/
def digitChar (d : Nat) : Char := Char.ofNat (48 + d)

/-- Decimal digits of `n`, most significant first, pushed in front of `acc`.
The first argument bounds the number of digits written. -/
def formatDigits : Nat → Nat → List Char → List Char
  | 0, _, acc => acc
  | fuel + 1, n, acc =>
    if n < 10 then digitChar n :: acc
    else formatDigits fuel (n / 10) (digitChar (n % 10) :: acc)

/-- Decimal representation of a natural number. -/
def formatNat (n : Nat) : List Char := formatDigits (n + 1) n []

/-- Decimal representation of an integer, with a leading minus sign when it
is negative (`strconv.Itoa`). -/
def strconvItoa : Int → String
  | Int.ofNat n => String.mk (formatNat n)
  | Int.negSucc n => String.mk ('-' :: formatNat (n + 1))

/-- The source's `intToString`. -/
def intToString (i : Int) : String := strconvItoa i

/-! ## Subscription resolver -/

/-- getClientChannels returns the channels this client should subscribe to. -/
def getClientChannels (client : Client) : List String :=
  let channels : List String := []
  -- Office can see all riders
  let channels :=
    if client.userRole = "office_manager" ∨ client.userRole = "office_staff"
        ∨ client.userRole = "super_admin" then
      channels ++ ["office.riders.locations"]
    else channels
  -- Merchant can see their own package location
  let channels :=
    if client.userRole = "merchant" ∧ client.merchantID ≠ none then
      match client.packageID with
      | some packageID =>
        channels ++ ["merchant.package." ++ intToString packageID ++ ".location"]
      | none => channels
    else channels
  channels

/-- The resolver as the specification words it: one office-wide topic for the
three office roles, one package topic for a merchant with both identifiers,
nothing otherwise. -/
def getClientChannelsSpec (client : Client) : List String :=
  if client.userRole = "office_manager" ∨ client.userRole = "office_staff"
      ∨ client.userRole = "super_admin" then
    ["office.riders.locations"]
  else if client.userRole = "merchant" then
    match client.merchantID, client.packageID with
    | some _, some p => ["merchant.package." ++ intToString p ++ ".location"]
    | _, _ => []
  else []

/-! ## Ingestion dispatcher -/

/-- The broadcast requests `handleLocationUpdate` puts on `hub.broadcast`, in
the order it sends them, for a decoded update and the `package_status` query
value. -/
def handleLocationUpdate (update : LocationUpdate) (packageStatus : String) :
    List BroadcastMessage :=
  -- Broadcast to office channel (office can always see all riders)
  let sent : List BroadcastMessage :=
    [{ Channel := "office.riders.locations", Event := "rider.location.updated", Data := update }]
  -- Broadcast to merchant package channel ONLY if package_id exists AND status is "on_the_way"
  match update.PackageID with
  | some packageID =>
    if packageStatus = "on_the_way" then
      sent ++ [{ Channel := "merchant.package." ++ intToString packageID ++ ".location",
                 Event := "rider.location.updated", Data := update }]
    else sent
  | none => sent

/-! ## Coordinator loop `Hub.run` -/

/-- Map assignment `m[k] = v` on the registry. -/
def mapSet (m : String → Option (List Client)) (k : String) (v : List Client) :
    String → Option (List Client) :=
  fun x => if x = k then some v else m x

/-- The builtin `delete(m, k)` on the registry. -/
def mapDelete (m : String → Option (List Client)) (k : String) :
    String → Option (List Client) :=
  fun x => if x = k then none else m x

/-- Assignment `set[client] = true` on a subscriber set. -/
def setInsert (set : List Client) (client : Client) : List Client :=
  if client ∈ set then set else set ++ [client]

/-- The builtin `delete(set, client)` on a subscriber set. -/
def setDelete (set : List Client) (client : Client) : List Client :=
  set.filter (fun x => x ≠ client)

/-- Replace the channel state of one client. -/
def chanSet (send : Client → Chan) (client : Client) (q : Chan) : Client → Chan :=
  fun x => if x = client then q else send x

/-- The hub built by `newHub`: an empty registry. Every client that `serveWs`
will create starts with an open, empty `send` channel. -/
def newHub : HubState :=
  { clients := fun _ => none
    send := fun _ => { buf := [], closed := false } }

/-- The loop of the register case over the resolved channels. -/
def registerLoop (client : Client) :
    List String → (String → Option (List Client)) → (String → Option (List Client))
  | [], clients => clients
  | channel :: rest, clients =>
    -- a missing entry is first created empty, then the client is added
    let set : List Client :=
      match clients channel with
      | some set => set
      | none => []
    registerLoop client rest (mapSet clients channel (setInsert set client))

/-- The case `client := <-h.register` of `Hub.run`. -/
def register (s : HubState) (client : Client) : HubState :=
  { s with clients := registerLoop client (getClientChannels client) s.clients }

/-- The loop of the unregister case over the resolved channels. -/
def unregisterLoop (client : Client) :
    List String → (String → Option (List Client)) → (String → Option (List Client))
  | [], clients => clients
  | channel :: rest, clients =>
    match clients channel with
    | some set =>
      let set := setDelete set client
      if set.length = 0 then unregisterLoop client rest (mapDelete clients channel)
      else unregisterLoop client rest (mapSet clients channel set)
    | none => unregisterLoop client rest clients

/-- The case `client := <-h.unregister` of `Hub.run`; `close(client.send)` is
not guarded and panics on a channel that is already closed. -/
def unregister (s : HubState) (client : Client) : Except Panic HubState :=
  let clients := unregisterLoop client (getClientChannels client) s.clients
  if (s.send client).closed then Except.error Panic.closeOfClosedChannel
  else
    Except.ok
      { clients := clients
        send := chanSet s.send client { buf := (s.send client).buf, closed := true } }

/-- The loop `for client := range clients` with its non-blocking send. The
first list is what is left to visit, `set` is the subscriber map being ranged
over (and mutated), `send` the channels. -/
def broadcastLoop (data : Frame) :
    List Client → List Client → (Client → Chan) →
      Except Panic (List Client × (Client → Chan))
  | [], set, send => Except.ok (set, send)
  | client :: rest, set, send =>
    if (send client).closed then Except.error Panic.sendOnClosedChannel
    else if (send client).buf.length < sendCap then
      -- case client.send <- data
      broadcastLoop data rest set
        (chanSet send client { buf := (send client).buf ++ [data], closed := false })
    else
      -- default: close(client.send); delete(clients, client)
      broadcastLoop data rest (setDelete set client)
        (chanSet send client { buf := (send client).buf, closed := true })

/-- The case `message := <-h.broadcast` of `Hub.run`. The subscriber map is a
reference, so the set left by the loop is the registry's entry afterwards. -/
def broadcast (s : HubState) (message : BroadcastMessage) : Except Panic HubState :=
  match s.clients message.Channel with
  | some set =>
    let data : Frame := { event := message.Event, data := message.Data }
    match broadcastLoop data set set s.send with
    | Except.ok (set, send) =>
      Except.ok { clients := mapSet s.clients message.Channel set, send := send }
    | Except.error e => Except.error e
  | none => Except.ok s

/-- One receive `<-c.send` by the client's `writePump`. -/
def receive (s : HubState) (client : Client) : HubState :=
  { s with send := chanSet s.send client
              { buf := (s.send client).buf.tail, closed := (s.send client).closed } }

/-- One operation processed against the hub state. -/
def step (s : HubState) : Op → Except Panic HubState
  | Op.register client => Except.ok (register s client)
  | Op.unregister client => unregister s client
  | Op.broadcast message => broadcast s message
  | Op.receive client => Except.ok (receive s client)

/-- A sequence of operations processed in order; the first panic ends it. -/
def run (s : HubState) : List Op → Except Panic HubState
  | [] => Except.ok s
  | op :: ops =>
    match step s op with
    | Except.ok s => run s ops
    | Except.error e => Except.error e

/-- The coordinator processing a list of requests in the order they were
submitted. Each request is a separate send on `hub.broadcast`, so after one
request and before the next the loop may take other operations from its
mailboxes: `between` is what it processes there. -/
def processRequests (between : List Op) :
    List BroadcastMessage → HubState → Except Panic HubState
  | [], s => Except.ok s
  | [message], s => broadcast s message
  | message :: next :: rest, s =>
    match broadcast s message with
    | Except.ok s1 =>
      match run s1 between with
      | Except.ok s2 => processRequests between (next :: rest) s2
      | Except.error e => Except.error e
    | Except.error e => Except.error e

/-- Dispatch of one update from the hub state `s` in which its first request
is processed: the requests of `handleLocationUpdate`, processed in the order
they were submitted, with the operations `between` processed between them
(the empty list when the coordinator takes the two requests back to back). -/
def dispatchUpdate (s : HubState) (update : LocationUpdate) (packageStatus : String)
    (between : List Op) : Except Panic HubState :=
  processRequests between (handleLocationUpdate update packageStatus) s

/-- Subscribers of a topic; a topic without an entry has none. -/
def subscribers (s : HubState) (topic : String) : List Client :=
  match s.clients topic with
  | some set => set
  | none => []

/-- The effect on the queues of processing one request for `topic` from state
`s` to state `s2`: a subscriber of `topic` in `s` holding fewer than 256 frames
has `frame` appended at the tail, a subscriber holding 256 has its queue
closed and gets no frame, and the queue of every other client is unchanged. -/
def Delivers (s s2 : HubState) (topic : String) (frame : Frame) : Prop :=
  (∀ c ∈ subscribers s topic, (s.send c).buf.length < 256 →
      s2.send c = { buf := (s.send c).buf ++ [frame], closed := false })
  ∧ (∀ c ∈ subscribers s topic, 256 ≤ (s.send c).buf.length →
      s2.send c = { buf := (s.send c).buf, closed := true })
  ∧ (∀ c, c ∉ subscribers s topic → s2.send c = s.send c)

/-- Hub states reachable from `newHub` by operations that do not panic. -/
inductive Reachable : HubState → Prop where
  | init : Reachable newHub
  | step {s s2 : HubState} (op : Op) : Reachable s → step s op = Except.ok s2 → Reachable s2

/-- Hub states reachable from `newHub` when clients are registered and
unregistered only while their `send` channel is open. A client that `serveWs`
has just created, and is registered once, meets the condition on `register`. -/
inductive ReachableOpen : HubState → Prop where
  | init : ReachableOpen newHub
  | register {s : HubState} (client : Client) :
      ReachableOpen s → (s.send client).closed = false → ReachableOpen (register s client)
  | unregister {s s2 : HubState} (client : Client) :
      ReachableOpen s → (s.send client).closed = false →
      unregister s client = Except.ok s2 → ReachableOpen s2
  | broadcast {s s2 : HubState} (message : BroadcastMessage) :
      ReachableOpen s → broadcast s message = Except.ok s2 → ReachableOpen s2
  | receive {s : HubState} (client : Client) :
      ReachableOpen s → ReachableOpen (receive s client)

/-! ## Concrete scenario -/

/-- Connection A: office staff, no identifiers. -/
def clientA : Client :=
  { conn := 1, userID := 1, userRole := "office_staff", merchantID := none, packageID := none }

/-- Connection B: merchant 5 watching package 42. -/
def clientB : Client :=
  { conn := 2, userID := 2, userRole := "merchant", merchantID := some 5, packageID := some 42 }

/-- The update of the scenario. -/
def update42 : LocationUpdate :=
  { RiderID := 1, Latitude := 1, Longitude := 2, PackageID := some 42, LastUpdate := "" }

/-- The office-wide request for the scenario's update. -/
def officeRequest42 : BroadcastMessage :=
  { Channel := "office.riders.locations", Event := "rider.location.updated", Data := update42 }

/-- Connection C: an office manager. -/
def clientC : Client :=
  { conn := 3, userID := 3, userRole := "office_manager", merchantID := none,
    packageID := none }

/-- A hub state where A and C are the office-wide subscribers and A's queue
already holds 256 frames. -/
def hubFull : HubState :=
  { clients := mapSet newHub.clients "office.riders.locations" [clientA, clientC]
    send := chanSet newHub.send clientA
      { buf := List.replicate 256 { event := "rider.location.updated", data := update42 },
        closed := false } }

/-- Hub after A and B have registered. -/
def hubAB : HubState := register (register newHub clientA) clientB

/-- Hub after A and B have registered and 256 office-wide broadcasts were
processed while A's write loop read nothing: A's queue is full and open. -/
def hubFilled : HubState :=
  match run hubAB ((List.replicate 256 officeRequest42).map Op.broadcast) with
  | Except.ok s => s
  | Except.error _ => hubAB

/-- Register A, then dispatch 257 office-wide broadcasts while A's write loop
reads nothing: the last one finds A's queue full. -/
def overflowOps : List Op :=
  Op.register clientA ::
    List.replicate 257
      (Op.broadcast { Channel := "office.riders.locations", Event := "rider.location.updated",
                      Data := update42 })

/-- Observation of a run: what it leaves at a topic's registry entry. -/
def entryAfter (r : Except Panic HubState) (topic : String) : Option (Option (List Client)) :=
  match r with
  | Except.ok s => some (s.clients topic)
  | Except.error _ => none

/-- Observation of a run: length, events and closed flag of a client's queue. -/
def queueAfter (r : Except Panic HubState) (client : Client) :
    Option (Nat × List String × Bool) :=
  match r with
  | Except.ok s =>
    some ((s.send client).buf.length, (s.send client).buf.map Frame.event, (s.send client).closed)
  | Except.error _ => none

/-- Observation of a run: the panic that ended it, if any. -/
def panicOf (r : Except Panic HubState) : Option Panic :=
  match r with
  | Except.ok _ => none
  | Except.error e => some e

/-- Registry well-formedness: the keys of every subscriber map are pairwise
distinct, and a client is only found under topics its attributes resolve to. -/
def RegistryWF (s : HubState) : Prop :=
  ∀ topic set, s.clients topic = some set →
    set.Nodup ∧ ∀ c ∈ set, topic ∈ getClientChannels c

/-- Every subscribed client has an open `send` channel. -/
def SubscribersOpen (s : HubState) : Prop :=
  ∀ topic set c, s.clients topic = some set → c ∈ set → (s.send c).closed = false

/-- Value of a string of decimal digits (the inverse of `formatNat`). -/
def digitsValue (cs : List Char) : Nat :=
  cs.foldl (fun v c => 10 * v + (c.toNat - 48)) 0

/-! ## Decimal formatting is injective -/

theorem digitChar_toNat : ∀ d, d < 10 → (digitChar d).toNat - 48 = d := by decide

theorem digitChar_ne_minus : ∀ d, d < 10 → digitChar d ≠ '-' := by decide

theorem formatDigits_value (fuel : Nat) :
    ∀ (n : Nat) (acc : List Char), n < fuel →
      (formatDigits fuel n acc).foldl (fun v c => 10 * v + (c.toNat - 48)) 0
        = acc.foldl (fun v c => 10 * v + (c.toNat - 48)) n := by
  induction fuel with
  | zero => intro n acc h; omega
  | succ fuel ih =>
    intro n acc h
    unfold formatDigits
    by_cases h10 : n < 10
    · simp only [h10, if_true, List.foldl_cons, digitChar_toNat n h10]
      simp
    · have hlt : n / 10 < fuel := by omega
      have hmod : n % 10 < 10 := Nat.mod_lt _ (by decide)
      simp only [h10, if_false, ih (n / 10) _ hlt, List.foldl_cons,
        digitChar_toNat (n % 10) hmod]
      congr 1
      omega

theorem digitsValue_formatNat (n : Nat) : digitsValue (formatNat n) = n := by
  unfold digitsValue formatNat
  rw [formatDigits_value (n + 1) n [] (Nat.lt_succ_self n)]
  rfl

theorem formatNat_injective {a b : Nat} (h : formatNat a = formatNat b) : a = b := by
  have := congrArg digitsValue h
  simpa [digitsValue_formatNat] using this

theorem minus_not_mem_formatDigits (fuel : Nat) :
    ∀ (n : Nat) (acc : List Char), '-' ∉ acc → '-' ∉ formatDigits fuel n acc := by
  induction fuel with
  | zero => intro n acc h; simpa [formatDigits] using h
  | succ fuel ih =>
    intro n acc h
    unfold formatDigits
    by_cases h10 : n < 10
    · simp only [h10, if_true, List.mem_cons, not_or]
      exact ⟨fun e => digitChar_ne_minus n h10 e.symm, h⟩
    · have hmod : n % 10 < 10 := Nat.mod_lt _ (by decide)
      simp only [h10, if_false]
      apply ih
      simp only [List.mem_cons, not_or]
      exact ⟨fun e => digitChar_ne_minus (n % 10) hmod e.symm, h⟩

theorem minus_not_mem_formatNat (n : Nat) : '-' ∉ formatNat n :=
  minus_not_mem_formatDigits (n + 1) n [] (by simp)

theorem intToString_injective {p q : Int} (h : intToString p = intToString q) : p = q := by
  unfold intToString at h
  have hd := congrArg String.data h
  cases p with
  | ofNat a =>
    cases q with
    | ofNat b =>
      change formatNat a = formatNat b at hd
      rw [formatNat_injective hd]
    | negSucc b =>
      change formatNat a = '-' :: formatNat (b + 1) at hd
      exact absurd (hd ▸ List.mem_cons_self _ _) (minus_not_mem_formatNat a)
  | negSucc a =>
    cases q with
    | ofNat b =>
      change '-' :: formatNat (a + 1) = formatNat b at hd
      exact absurd (hd.symm ▸ List.mem_cons_self _ _) (minus_not_mem_formatNat b)
    | negSucc b =>
      change '-' :: formatNat (a + 1) = '-' :: formatNat (b + 1) at hd
      have := formatNat_injective (List.cons.inj hd).2
      have hab : a = b := by omega
      rw [hab]

theorem packageTopic_injective {p q : Int}
    (h : "merchant.package." ++ intToString p ++ ".location"
      = "merchant.package." ++ intToString q ++ ".location") : p = q := by
  have hd := congrArg String.data h
  simp only [String.data_append] at hd
  have h1 := List.append_cancel_left (List.append_cancel_right hd)
  exact intToString_injective (String.ext h1)

theorem packageTopic_ne_office (p : Int) :
    "merchant.package." ++ intToString p ++ ".location" ≠ "office.riders.locations" := by
  intro h
  have hd := congrArg String.data h
  simp only [String.data_append] at hd
  rw [List.cons_append, List.cons_append] at hd
  exact absurd (List.cons.inj hd).1 (by decide)

/-! ## Resolver and dispatcher -/

theorem office_role_ne_merchant {role : String}
    (h : role = "office_manager" ∨ role = "office_staff" ∨ role = "super_admin") :
    role ≠ "merchant" := by
  rcases h with h | h | h <;> rw [h] <;> decide

theorem mem_getClientChannels (client : Client) (topic : String) :
    topic ∈ getClientChannels client ↔
      ((client.userRole = "office_manager" ∨ client.userRole = "office_staff"
          ∨ client.userRole = "super_admin") ∧ topic = "office.riders.locations")
      ∨ (client.userRole = "merchant" ∧ client.merchantID ≠ none
          ∧ ∃ p, client.packageID = some p
              ∧ topic = "merchant.package." ++ intToString p ++ ".location") := by
  unfold getClientChannels
  by_cases hoff : client.userRole = "office_manager" ∨ client.userRole = "office_staff"
      ∨ client.userRole = "super_admin"
  · have hm := office_role_ne_merchant hoff
    simp [hoff, hm]
  · by_cases hm : client.userRole = "merchant" ∧ client.merchantID ≠ none
    · cases client.packageID <;> simp [hoff, hm]
    · simp only [hoff, if_false, hm, false_and, false_or, List.nil_append]
      constructor
      · intro h
        cases h
      · rintro ⟨h1, h2, -⟩
        exact absurd ⟨h1, h2⟩ hm

theorem getClientChannels_cases (client : Client) :
    getClientChannels client = [] ∨ ∃ topic, getClientChannels client = [topic] := by
  unfold getClientChannels
  by_cases hoff : client.userRole = "office_manager" ∨ client.userRole = "office_staff"
      ∨ client.userRole = "super_admin"
  · have hm := office_role_ne_merchant hoff
    simp [hoff, hm]
  · by_cases hm : client.userRole = "merchant" ∧ client.merchantID ≠ none
    · cases client.packageID <;> simp [hoff, hm]
    · simp [hoff, hm]

theorem broadcast_absent (s : HubState) (message : BroadcastMessage)
    (h : s.clients message.Channel = none) : broadcast s message = Except.ok s := by
  simp [broadcast, h]

/-- C1. `getClientChannels` equals the reference definition: exactly the
office-wide topic for the roles office_manager, office_staff and super_admin,
exactly the package topic for a merchant with merchant id and package id, and
no topic for a merchant missing an id or for any other role. -/
theorem getClientChannels_eq_spec (client : Client) :
    getClientChannels client = getClientChannelsSpec client := by
  unfold getClientChannels getClientChannelsSpec
  by_cases hoff : client.userRole = "office_manager" ∨ client.userRole = "office_staff"
      ∨ client.userRole = "super_admin"
  · have hm : client.userRole ≠ "merchant" := by
      rcases hoff with h | h | h <;> rw [h] <;> decide
    simp only [hoff, if_true, hm, false_and, if_false]
    rfl
  · simp only [hoff, if_false]
    by_cases hm : client.userRole = "merchant"
    · simp only [hm, true_and, if_true]
      cases client.packageID <;> cases client.merchantID <;> simp
    · simp only [hm, false_and, if_false]

/-- C2. For every update and status, `handleLocationUpdate` submits first the
office-wide request with the update as payload, and after it the
package-scoped request exactly when the update carries a package id and the
status is "on_the_way"; it submits nothing else. -/
theorem handleLocationUpdate_requests (update : LocationUpdate) (packageStatus : String) :
    ∃ rest : List BroadcastMessage,
      handleLocationUpdate update packageStatus
        = { Channel := "office.riders.locations", Event := "rider.location.updated",
            Data := update } :: rest
      ∧ (∀ p : Int, update.PackageID = some p ∧ packageStatus = "on_the_way" →
          rest = [{ Channel := "merchant.package." ++ intToString p ++ ".location",
                    Event := "rider.location.updated", Data := update }])
      ∧ ((¬ ∃ p : Int, update.PackageID = some p ∧ packageStatus = "on_the_way") →
          rest = []) := by
  unfold handleLocationUpdate
  cases hp : update.PackageID with
  | none => exact ⟨[], by simp, by simp, by simp⟩
  | some p =>
    by_cases hs : packageStatus = "on_the_way"
    · refine ⟨[{ Channel := "merchant.package." ++ intToString p ++ ".location",
                 Event := "rider.location.updated", Data := update }], by simp [hs], ?_, ?_⟩
      · rintro q ⟨hq, -⟩
        cases hq
        rfl
      · intro hne
        exact absurd ⟨p, rfl, hs⟩ hne
    · refine ⟨[], by simp [hs], ?_, ?_⟩
      · rintro q ⟨-, hq⟩
        exact absurd hq hs
      · intro _
        rfl

/-- C10. The package topic name is injective in the package id (negative ids
included) and is never the office-wide topic; so the package-scoped request
built for an update with package id p targets a topic that a client resolves
to exactly when the client is a merchant with a merchant id and package id p. -/
theorem package_isolation :
    (∀ p q : Int, "merchant.package." ++ intToString p ++ ".location"
        = "merchant.package." ++ intToString q ++ ".location" → p = q)
    ∧ (∀ p : Int,
        "merchant.package." ++ intToString p ++ ".location" ≠ "office.riders.locations")
    ∧ (∀ (update : LocationUpdate) (p : Int) (client : Client), update.PackageID = some p →
        ∃ first request : BroadcastMessage,
          handleLocationUpdate update "on_the_way" = [first, request]
          ∧ request.Channel = "merchant.package." ++ intToString p ++ ".location"
          ∧ (request.Channel ∈ getClientChannels client ↔
              client.userRole = "merchant" ∧ client.merchantID ≠ none
                ∧ client.packageID = some p)) := by
  refine ⟨fun p q h => packageTopic_injective h, packageTopic_ne_office, ?_⟩
  intro update p client hp
  refine ⟨{ Channel := "office.riders.locations", Event := "rider.location.updated",
              Data := update },
    { Channel := "merchant.package." ++ intToString p ++ ".location",
      Event := "rider.location.updated", Data := update },
    by simp [handleLocationUpdate, hp], rfl, ?_⟩
  rw [mem_getClientChannels]
  constructor
  · rintro (⟨-, h⟩ | ⟨h1, h2, q, hq, h⟩)
    · exact absurd h (packageTopic_ne_office p)
    · exact ⟨h1, h2, by rw [hq, packageTopic_injective h]⟩
  · rintro ⟨h1, h2, h3⟩
    exact Or.inr ⟨h1, h2, p, h3, rfl⟩

/-! ## The broadcast case -/

theorem broadcastLoop_ok (data : Frame) :
    ∀ (todo set : List Client) (send : Client → Chan), todo.Nodup →
      (∀ c ∈ todo, (send c).closed = false) →
      broadcastLoop data todo set send = Except.ok
        (set.filter (fun c => decide (c ∉ todo ∨ (send c).buf.length < sendCap)),
         fun c => if c ∈ todo then
             (if (send c).buf.length < sendCap then
                { buf := (send c).buf ++ [data], closed := false }
              else { buf := (send c).buf, closed := true })
           else send c) := by
  intro todo
  induction todo with
  | nil =>
    intro set send _ _
    simp [broadcastLoop]
  | cons c rest ih =>
    intro set send hnd hopen
    have hc : (send c).closed = false := hopen c (List.mem_cons_self _ _)
    have hcr : c ∉ rest := (List.nodup_cons.mp hnd).1
    have hndr : rest.Nodup := (List.nodup_cons.mp hnd).2
    have hne : ∀ x ∈ rest, x ≠ c := fun x hx e => hcr (e ▸ hx)
    unfold broadcastLoop
    simp only [hc, Bool.false_eq_true, if_false]
    by_cases hlen : (send c).buf.length < sendCap
    · simp only [hlen, if_true]
      rw [ih set _ hndr (by
        intro x hx
        simp only [chanSet, hne x hx, if_false]
        exact hopen x (List.mem_cons_of_mem _ hx))]
      refine congrArg Except.ok (Prod.ext ?_ ?_)
      · apply List.filter_congr
        intro x _
        by_cases hxc : x = c
        · subst hxc
          simp [chanSet, hcr, hlen]
        · simp [chanSet, hxc]
      · funext x
        by_cases hxc : x = c
        · subst hxc
          simp [chanSet, hcr, hlen]
        · simp [chanSet, hxc]
    · simp only [hlen, if_false]
      rw [ih (setDelete set c) _ hndr (by
        intro x hx
        simp only [chanSet, hne x hx, if_false]
        exact hopen x (List.mem_cons_of_mem _ hx))]
      refine congrArg Except.ok (Prod.ext ?_ ?_)
      · unfold setDelete
        rw [List.filter_filter]
        apply List.filter_congr
        intro x _
        by_cases hxc : x = c
        · subst hxc
          simp [hlen]
        · simp [chanSet, hxc]
      · funext x
        by_cases hxc : x = c
        · subst hxc
          simp [chanSet, hcr, hlen]
        · simp [chanSet, hxc]

theorem broadcast_ok (s : HubState) (message : BroadcastMessage) (subs : List Client)
    (hsubs : s.clients message.Channel = some subs) (hnd : subs.Nodup)
    (hopen : ∀ c ∈ subs, (s.send c).closed = false) :
    broadcast s message = Except.ok
      { clients := mapSet s.clients message.Channel
          (subs.filter (fun c => decide ((s.send c).buf.length < sendCap)))
        send := fun c => if c ∈ subs then
            (if (s.send c).buf.length < sendCap then
              { buf := (s.send c).buf ++ [{ event := message.Event, data := message.Data }],
                closed := false }
             else { buf := (s.send c).buf, closed := true })
          else s.send c } := by
  unfold broadcast
  simp only [hsubs]
  rw [broadcastLoop_ok _ subs subs s.send hnd hopen]
  have hf : subs.filter (fun c => decide (c ∉ subs ∨ (s.send c).buf.length < sendCap))
      = subs.filter (fun c => decide ((s.send c).buf.length < sendCap)) := by
    apply List.filter_congr
    intro x hx
    simp [hx]
  simp only [hf]

/-- C8. A broadcast to a topic that has no registry entry, or an entry with
no subscriber, succeeds and changes nothing: same registry, same queues. -/
theorem broadcast_no_subscribers (s : HubState) (message : BroadcastMessage)
    (h : s.clients message.Channel = none ∨ s.clients message.Channel = some []) :
    broadcast s message = Except.ok s := by
  rcases h with h | h
  · simp [broadcast, h]
  · have hreg : mapSet s.clients message.Channel [] = s.clients := by
      funext x
      by_cases hx : x = message.Channel
      · simp [mapSet, hx, h]
      · simp [mapSet, hx]
    simp [broadcast, h, broadcastLoop, hreg]

/-! ## Register and unregister, pointwise -/

theorem registerLoop_apply (client : Client) (reg : String → Option (List Client))
    (topic : String) :
    registerLoop client (getClientChannels client) reg topic
      = if topic ∈ getClientChannels client then
          some (setInsert (match reg topic with
                           | some set => set
                           | none => []) client)
        else reg topic := by
  rcases getClientChannels_cases client with h | ⟨t, h⟩
  · simp [h, registerLoop]
  · rw [h]
    by_cases ht : topic = t
    · subst ht
      simp [registerLoop, mapSet]
    · simp [registerLoop, mapSet, ht]

theorem unregisterLoop_apply (client : Client) (reg : String → Option (List Client))
    (topic : String) :
    unregisterLoop client (getClientChannels client) reg topic
      = match reg topic with
        | none => none
        | some set =>
          if topic ∈ getClientChannels client then
            (if setDelete set client = [] then none else some (setDelete set client))
          else some set := by
  rcases getClientChannels_cases client with h | ⟨t, h⟩
  · rw [h]
    cases hreg : reg topic <;> simp [unregisterLoop, hreg]
  · rw [h]
    by_cases ht : topic = t
    · subst ht
      cases hreg : reg topic with
      | none => simp [unregisterLoop, hreg]
      | some set =>
        by_cases he : setDelete set client = []
        · simp [unregisterLoop, hreg, he, mapDelete]
        · simp [unregisterLoop, hreg, he, mapSet]
    · cases hreg : reg t with
      | none =>
        cases hreg2 : reg topic <;> simp [unregisterLoop, hreg, hreg2, ht]
      | some set =>
        by_cases he : setDelete set client = []
        · cases hreg2 : reg topic <;>
            simp [unregisterLoop, hreg, hreg2, he, mapDelete, ht]
        · cases hreg2 : reg topic <;>
            simp [unregisterLoop, hreg, hreg2, he, mapSet, ht]

theorem unregister_eq (s : HubState) (client : Client)
    (hopen : (s.send client).closed = false) :
    unregister s client = Except.ok
      { clients := unregisterLoop client (getClientChannels client) s.clients
        send := chanSet s.send client { buf := (s.send client).buf, closed := true } } := by
  simp [unregister, hopen]

theorem unregister_ok_open {s s2 : HubState} {client : Client}
    (h : unregister s client = Except.ok s2) : (s.send client).closed = false := by
  cases hc : (s.send client).closed with
  | false => rfl
  | true => simp [unregister, hc] at h

theorem setInsert_nodup {set : List Client} (client : Client) (h : set.Nodup) :
    (setInsert set client).Nodup := by
  unfold setInsert
  split
  · exact h
  · rename_i hmem
    rw [List.nodup_append]
    refine ⟨h, List.nodup_singleton _, ?_⟩
    intro x hx hy
    simp only [List.mem_singleton] at hy
    exact hmem (hy ▸ hx)

theorem mem_setInsert {set : List Client} {client x : Client} :
    x ∈ setInsert set client ↔ x ∈ set ∨ x = client := by
  unfold setInsert
  split
  · rename_i hmem
    constructor
    · exact Or.inl
    · rintro (h | h)
      · exact h
      · exact h ▸ hmem
  · simp

theorem mem_setDelete {set : List Client} {client x : Client} :
    x ∈ setDelete set client ↔ x ∈ set ∧ x ≠ client := by
  simp [setDelete]

theorem setDelete_of_not_mem {set : List Client} {client : Client} (h : client ∉ set) :
    setDelete set client = set := by
  unfold setDelete
  rw [List.filter_eq_self]
  intro x hx
  have : x ≠ client := fun e => h (e ▸ hx)
  simp [this]

theorem broadcastLoop_sublist (data : Frame) :
    ∀ (todo set : List Client) (send : Client → Chan) (r : List Client × (Client → Chan)),
      broadcastLoop data todo set send = Except.ok r → r.1.Sublist set := by
  intro todo
  induction todo with
  | nil =>
    intro set send r h
    simp only [broadcastLoop, Except.ok.injEq] at h
    rw [← h]
  | cons c rest ih =>
    intro set send r h
    unfold broadcastLoop at h
    by_cases hc : (send c).closed = true
    · simp [hc] at h
    · by_cases hlen : (send c).buf.length < sendCap
      · simp only [hc, hlen, if_true, if_false] at h
        exact ih _ _ _ h
      · simp only [hc, hlen, if_false] at h
        exact (ih _ _ _ h).trans (List.filter_sublist _)

/-! ## Invariants of reachable states -/

theorem register_wf {s : HubState} (client : Client) (h : RegistryWF s) :
    RegistryWF (register s client) := by
  intro topic set hset
  simp only [register, registerLoop_apply] at hset
  by_cases ht : topic ∈ getClientChannels client
  · simp only [ht, if_true, Option.some.injEq] at hset
    subst hset
    cases hreg : s.clients topic with
    | none =>
      refine ⟨setInsert_nodup client List.nodup_nil, ?_⟩
      intro c hc
      rw [mem_setInsert] at hc
      rcases hc with hc | hc
      · cases hc
      · exact hc ▸ ht
    | some old =>
      refine ⟨setInsert_nodup client (h topic old hreg).1, ?_⟩
      intro c hc
      rw [mem_setInsert] at hc
      rcases hc with hc | hc
      · exact (h topic old hreg).2 c hc
      · exact hc ▸ ht
  · simp only [ht, if_false] at hset
    exact h topic set hset

theorem unregister_wf {s s2 : HubState} {client : Client} (h : RegistryWF s)
    (hs : unregister s client = Except.ok s2) : RegistryWF s2 := by
  rw [unregister_eq s client (unregister_ok_open hs)] at hs
  cases hs
  intro topic set hset
  simp only [unregisterLoop_apply] at hset
  cases hreg : s.clients topic with
  | none => simp [hreg] at hset
  | some old =>
    simp only [hreg] at hset
    have hold := h topic old hreg
    split at hset
    · split at hset
      · cases hset
      · cases hset
        exact ⟨hold.1.filter _, fun c hc => hold.2 c (mem_setDelete.mp hc).1⟩
    · cases hset
      exact hold

theorem broadcast_wf {s s2 : HubState} {message : BroadcastMessage} (h : RegistryWF s)
    (hs : broadcast s message = Except.ok s2) : RegistryWF s2 := by
  unfold broadcast at hs
  cases hreg : s.clients message.Channel with
  | none =>
    simp only [hreg, Except.ok.injEq] at hs
    exact hs ▸ h
  | some old =>
    simp only [hreg] at hs
    cases hloop : broadcastLoop { event := message.Event, data := message.Data } old old s.send with
    | error e => simp [hloop] at hs
    | ok r =>
      simp only [hloop, Except.ok.injEq] at hs
      subst hs
      have hsub := broadcastLoop_sublist _ _ _ _ _ hloop
      have hold := h message.Channel old hreg
      intro topic set hset
      by_cases ht : topic = message.Channel
      · simp only [mapSet, ht, if_true, Option.some.injEq] at hset
        subst hset
        exact ⟨hold.1.sublist hsub, fun c hc => ht ▸ hold.2 c (hsub.subset hc)⟩
      · simp only [mapSet, ht, if_false] at hset
        exact h topic set hset

theorem Reachable.wf {s : HubState} (h : Reachable s) : RegistryWF s := by
  induction h with
  | init =>
    intro topic set hset
    simp [newHub] at hset
  | step op _ hs ih =>
    cases op with
    | register client =>
      cases hs
      exact register_wf client ih
    | unregister client => exact unregister_wf ih hs
    | broadcast message => exact broadcast_wf ih hs
    | receive client =>
      cases hs
      exact ih

theorem ReachableOpen.reachable {s : HubState} (h : ReachableOpen s) : Reachable s := by
  induction h with
  | init => exact Reachable.init
  | register client _ _ ih => exact Reachable.step (Op.register client) ih rfl
  | unregister client _ _ hs ih => exact Reachable.step (Op.unregister client) ih hs
  | broadcast message _ hs ih => exact Reachable.step (Op.broadcast message) ih hs
  | receive client _ ih => exact Reachable.step (Op.receive client) ih rfl

theorem getClientChannels_unique {client : Client} {a b : String}
    (ha : a ∈ getClientChannels client) (hb : b ∈ getClientChannels client) : a = b := by
  rcases getClientChannels_cases client with h | ⟨t, h⟩
  · simp [h] at ha
  · rw [h, List.mem_singleton] at ha hb
    rw [ha, hb]

theorem Reachable.run {s s2 : HubState} (ops : List Op) (h : Reachable s)
    (hs : LocationTracker.run s ops = Except.ok s2) : Reachable s2 := by
  induction ops generalizing s with
  | nil =>
    simp only [LocationTracker.run, Except.ok.injEq] at hs
    exact hs ▸ h
  | cons op ops ih =>
    unfold LocationTracker.run at hs
    cases hstep : LocationTracker.step s op with
    | error e => simp [hstep] at hs
    | ok s1 =>
      simp only [hstep] at hs
      exact ih (Reachable.step op h hstep) hs

theorem mem_subscribers {s : HubState} {topic : String} {c : Client} :
    c ∈ subscribers s topic ↔ ∃ set, s.clients topic = some set ∧ c ∈ set := by
  unfold subscribers
  cases s.clients topic <;> simp

theorem subscribers_channel {s : HubState} (h : RegistryWF s) {topic : String} {c : Client}
    (hc : c ∈ subscribers s topic) : topic ∈ getClientChannels c := by
  obtain ⟨set, hset, hmem⟩ := mem_subscribers.mp hc
  exact (h topic set hset).2 c hmem

theorem subscribers_nodup {s : HubState} (h : RegistryWF s) (topic : String) :
    (subscribers s topic).Nodup := by
  unfold subscribers
  cases hreg : s.clients topic with
  | none => exact List.nodup_nil
  | some set => exact (h topic set hreg).1

/-- The broadcast case in terms of `subscribers`, entry present or not. -/
theorem broadcast_send (s : HubState) (message : BroadcastMessage)
    (hnd : (subscribers s message.Channel).Nodup)
    (hopen : ∀ c ∈ subscribers s message.Channel, (s.send c).closed = false) :
    ∃ s2 : HubState, broadcast s message = Except.ok s2
      ∧ (∀ c, s2.send c = if c ∈ subscribers s message.Channel then
            (if (s.send c).buf.length < 256 then
              { buf := (s.send c).buf ++ [{ event := message.Event, data := message.Data }],
                closed := false }
             else { buf := (s.send c).buf, closed := true })
          else s.send c)
      ∧ (∀ topic, topic ≠ message.Channel → s2.clients topic = s.clients topic)
      ∧ subscribers s2 message.Channel
          = (subscribers s message.Channel).filter
              (fun c => decide ((s.send c).buf.length < 256)) := by
  cases hreg : s.clients message.Channel with
  | none =>
    refine ⟨s, broadcast_absent s message hreg, ?_, fun _ _ => rfl, ?_⟩
    · intro c
      simp [subscribers, hreg]
    · simp [subscribers, hreg]
  | some subs =>
    have hs : subscribers s message.Channel = subs := by simp [subscribers, hreg]
    rw [hs] at hnd hopen
    refine ⟨_, broadcast_ok s message subs hreg hnd hopen, ?_, ?_, ?_⟩
    · intro c
      simp [hs, sendCap]
    · intro topic hne
      simp [mapSet, hne]
    · simp [subscribers, mapSet, hreg, sendCap]

/-- C4. A broadcast to a topic whose subscribers (pairwise distinct, as the
keys of a Go map are) all have open queues succeeds; each subscriber with
fewer than 256 pending frames gets the one serialized frame appended at the
tail and stays subscribed; each subscriber with a full queue has its queue
closed, gets no frame and leaves the topic; the topic's subscribers afterwards
are the old ones without the full ones, whatever their number; other topics'
entries and the queues of clients outside the topic are unchanged. -/
theorem broadcast_delivery (s : HubState) (message : BroadcastMessage)
    (hnd : (subscribers s message.Channel).Nodup)
    (hopen : ∀ c ∈ subscribers s message.Channel, (s.send c).closed = false) :
    ∃ s2 : HubState, broadcast s message = Except.ok s2
      ∧ (∀ c ∈ subscribers s message.Channel, (s.send c).buf.length < 256 →
          s2.send c = { buf := (s.send c).buf
                          ++ [{ event := message.Event, data := message.Data }],
                        closed := false }
          ∧ c ∈ subscribers s2 message.Channel)
      ∧ (∀ c ∈ subscribers s message.Channel, 256 ≤ (s.send c).buf.length →
          s2.send c = { buf := (s.send c).buf, closed := true }
          ∧ c ∉ subscribers s2 message.Channel)
      ∧ subscribers s2 message.Channel
          = (subscribers s message.Channel).filter
              (fun c => decide ((s.send c).buf.length < 256))
      ∧ (∀ topic, topic ≠ message.Channel → s2.clients topic = s.clients topic)
      ∧ (∀ c, c ∉ subscribers s message.Channel → s2.send c = s.send c) := by
  obtain ⟨s2, hs2, hsend, hother, hsubs⟩ := broadcast_send s message hnd hopen
  refine ⟨s2, hs2, ?_, ?_, hsubs, hother, ?_⟩
  · intro c hc hlen
    refine ⟨by simp [hsend c, hc, hlen], ?_⟩
    rw [hsubs, List.mem_filter]
    exact ⟨hc, by simpa using hlen⟩
  · intro c hc hfull
    have hnl : ¬ (s.send c).buf.length < 256 := by omega
    refine ⟨by simp [hsend c, hc, hnl], ?_⟩
    rw [hsubs, List.mem_filter]
    intro hin
    exact hnl (by simpa using hin.2)
  · intro c hc
    simp [hsend c, hc]

theorem ReachableOpen.subscribersOpen {s : HubState} (h : ReachableOpen s) :
    SubscribersOpen s := by
  induction h with
  | init =>
    intro topic set c hset _
    simp [newHub] at hset
  | @register s client hr hopen ih =>
    intro topic set c hset hc
    show (s.send c).closed = false
    simp only [LocationTracker.register, registerLoop_apply] at hset
    by_cases ht : topic ∈ getClientChannels client
    · simp only [ht, if_true, Option.some.injEq] at hset
      subst hset
      rw [mem_setInsert] at hc
      rcases hc with hc | hc
      · cases hreg : s.clients topic with
        | none => simp [hreg] at hc
        | some old =>
          simp only [hreg] at hc
          exact ih topic old c hreg hc
      · exact hc ▸ hopen
    · simp only [ht, if_false] at hset
      exact ih topic set c hset hc
  | @unregister s s2 client hr hopen hs ih =>
    have hwf := hr.reachable.wf
    rw [unregister_eq s client hopen] at hs
    cases hs
    intro topic set c hset hc
    simp only [unregisterLoop_apply] at hset
    cases hreg : s.clients topic with
    | none => simp [hreg] at hset
    | some old =>
      simp only [hreg] at hset
      have hcold : c ∈ old ∧ c ≠ client := by
        split at hset
        · split at hset
          · cases hset
          · cases hset
            exact mem_setDelete.mp hc
        · rename_i hnot
          cases hset
          exact ⟨hc, fun e => hnot ((hwf topic _ hreg).2 client (e ▸ hc))⟩
      simp only [chanSet, hcold.2, if_false]
      exact ih topic old c hreg hcold.1
  | @broadcast s s2 message hr hs ih =>
    have hwf := hr.reachable.wf
    obtain ⟨s3, hs3, hsend, hother, hsubs⟩ := broadcast_send s message
      (subscribers_nodup hwf _)
      (fun c hc => by
        obtain ⟨set, hset, hmem⟩ := mem_subscribers.mp hc
        exact ih _ set c hset hmem)
    rw [hs3] at hs
    cases hs
    intro topic set c hset hc
    rw [hsend c]
    by_cases ht : topic = message.Channel
    · subst ht
      have hc2 : c ∈ subscribers s2 message.Channel := mem_subscribers.mpr ⟨set, hset, hc⟩
      rw [hsubs, List.mem_filter] at hc2
      have hlen : (s.send c).buf.length < 256 := by simpa using hc2.2
      simp [hc2.1, hlen]
    · rw [hother topic ht] at hset
      have hnot : c ∉ subscribers s message.Channel := by
        intro hin
        exact ht (getClientChannels_unique ((hwf topic set hset).2 c hc)
          (subscribers_channel hwf hin))
      simp only [hnot, if_false]
      exact ih topic set c hset hc
  | @receive s client hr ih =>
    intro topic set c hset hc
    have := ih topic set c hset hc
    simp only [LocationTracker.receive, chanSet]
    split
    · rename_i he
      rw [← he]
      exact this
    · exact this

/-! ## Unregister -/

theorem unregisterLoop_none (client : Client) {reg : String → Option (List Client)}
    {topic : String} (hreg : reg topic = none) :
    unregisterLoop client (getClientChannels client) reg topic = none := by
  rw [unregisterLoop_apply, hreg]

theorem unregisterLoop_outside (client : Client) {reg : String → Option (List Client)}
    {topic : String} {set : List Client} (hreg : reg topic = some set)
    (ht : topic ∉ getClientChannels client) :
    unregisterLoop client (getClientChannels client) reg topic = some set := by
  rw [unregisterLoop_apply, hreg]
  simp only [ht, if_false]

theorem unregisterLoop_emptied (client : Client) {reg : String → Option (List Client)}
    {topic : String} {set : List Client} (hreg : reg topic = some set)
    (ht : topic ∈ getClientChannels client) (he : setDelete set client = []) :
    unregisterLoop client (getClientChannels client) reg topic = none := by
  rw [unregisterLoop_apply, hreg]
  simp only [ht, he, if_true]

theorem unregisterLoop_kept (client : Client) {reg : String → Option (List Client)}
    {topic : String} {set : List Client} (hreg : reg topic = some set)
    (ht : topic ∈ getClientChannels client) (he : setDelete set client ≠ []) :
    unregisterLoop client (getClientChannels client) reg topic
      = some (setDelete set client) := by
  rw [unregisterLoop_apply, hreg]
  simp only [ht, he, if_true, if_false]

/-- C5. In a reachable hub state, unregistering a client whose queue is open
succeeds and leaves the client in no subscriber set; a topic whose only member
was the client loses its entry, so a later broadcast to that name changes
nothing; any other entry is the old set without the client; a topic without
entry stays without; the client's queue is closed and no other queue changes. -/
theorem unregister_removes (s : HubState) (client : Client) (hr : Reachable s)
    (hopen : (s.send client).closed = false) :
    ∃ s2 : HubState, unregister s client = Except.ok s2
      ∧ (∀ topic, client ∉ subscribers s2 topic)
      ∧ (∀ topic, s.clients topic = some [client] →
          s2.clients topic = none
          ∧ ∀ event data,
              broadcast s2 { Channel := topic, Event := event, Data := data } = Except.ok s2)
      ∧ (∀ topic set, s.clients topic = some set → (∃ x ∈ set, x ≠ client) →
          s2.clients topic = some (set.filter (fun x => decide (x ≠ client))))
      ∧ (∀ topic, s.clients topic = none → s2.clients topic = none)
      ∧ (∀ topic, subscribers s2 topic
          = (subscribers s topic).filter (fun x => decide (x ≠ client)))
      ∧ s2.send client = { buf := (s.send client).buf, closed := true }
      ∧ (∀ x, x ≠ client → s2.send x = s.send x) := by
  have hwf := hr.wf
  refine ⟨_, unregister_eq s client hopen, ?_, ?_, ?_, ?_, ?_, ?_, ?_⟩
  · intro topic hmem
    obtain ⟨set, hset, hc⟩ := mem_subscribers.mp hmem
    simp only [unregisterLoop_apply] at hset
    cases hreg : s.clients topic with
    | none => simp [hreg] at hset
    | some old =>
      simp only [hreg] at hset
      split at hset
      · split at hset
        · cases hset
        · cases hset
          exact (mem_setDelete.mp hc).2 rfl
      · rename_i hnot
        cases hset
        exact hnot ((hwf topic _ hreg).2 client hc)
  · intro topic hreg
    have ht : topic ∈ getClientChannels client :=
      (hwf topic _ hreg).2 client (List.mem_singleton_self _)
    have hnone : unregisterLoop client (getClientChannels client) s.clients topic = none :=
      unregisterLoop_emptied client hreg ht (by simp [setDelete])
    exact ⟨hnone, fun event data => broadcast_absent _ _ hnone⟩
  · rintro topic set hreg ⟨x, hx, hxc⟩
    show unregisterLoop client (getClientChannels client) s.clients topic = _
    by_cases ht : topic ∈ getClientChannels client
    · exact unregisterLoop_kept client hreg ht
        (List.ne_nil_of_mem (mem_setDelete.mpr ⟨hx, hxc⟩))
    · have hnot : client ∉ set := fun hc => ht ((hwf topic set hreg).2 client hc)
      have hsame := setDelete_of_not_mem hnot
      unfold setDelete at hsame
      rw [hsame]
      exact unregisterLoop_outside client hreg ht
  · intro topic hreg
    exact unregisterLoop_none client hreg
  · intro topic
    show (match unregisterLoop client (getClientChannels client) s.clients topic with
          | some set => set
          | none => []) = _
    unfold subscribers
    cases hreg : s.clients topic with
    | none =>
      rw [unregisterLoop_none client hreg]
      rfl
    | some set =>
      show _ = setDelete set client
      by_cases ht : topic ∈ getClientChannels client
      · by_cases he : setDelete set client = []
        · rw [unregisterLoop_emptied client hreg ht he, he]
        · rw [unregisterLoop_kept client hreg ht he]
      · have hnot : client ∉ set := fun hc => ht ((hwf topic set hreg).2 client hc)
        rw [unregisterLoop_outside client hreg ht, setDelete_of_not_mem hnot]
  · simp [chanSet]
  · intro x hx
    simp [chanSet, hx]

set_option maxRecDepth 8192 in
/-- C6, evaluated. Once overflow eviction has closed A's
queue, the unregister that A's read loop sends panics with a close of a closed
channel; so does a second unregister of a client already unregistered. -/
theorem unregister_after_eviction_panics :
    panicOf (run newHub (overflowOps ++ [Op.unregister clientA]))
        = some Panic.closeOfClosedChannel
    ∧ (queueAfter (run newHub overflowOps) clientA).map (fun q => (q.1, q.2.2))
        = some (256, true)
    ∧ panicOf (run newHub [Op.register clientA, Op.unregister clientA, Op.unregister clientA])
        = some Panic.closeOfClosedChannel := by
  refine ⟨by decide, by decide, by decide⟩

/-- C7, evaluated. After A registers and 257 broadcasts evict
it for overflow, the reachable hub state still has a registry entry for the
office-wide topic, with an empty subscriber set. -/
theorem eviction_leaves_empty_topic :
    ∃ s : HubState, Reachable s ∧ run newHub overflowOps = Except.ok s
      ∧ s.clients "office.riders.locations" = some [] := by
  have hentry : entryAfter (run newHub overflowOps) "office.riders.locations"
      = some (some []) := by decide
  cases hrun : run newHub overflowOps with
  | error e => simp [hrun, entryAfter] at hentry
  | ok s =>
    refine ⟨s, Reachable.run overflowOps Reachable.init hrun, rfl, ?_⟩
    simpa [hrun, entryAfter] using hentry

/-! ## Dispatch never meets a closed queue -/

/-- C9. In every hub state reached by broadcasts, registers of clients whose
queue is open and unregisters of clients whose queue is open, each subscribed
client has an open queue and sits only under a topic its attributes resolve
to, of which there is at most one; hence every broadcast succeeds (no send on
a closed channel), and a client evicted for overflow is afterwards in no
subscriber set of the registry. -/
theorem dispatch_never_hits_closed (s : HubState) (hr : ReachableOpen s) :
    (∀ topic set c, s.clients topic = some set → c ∈ set →
        (s.send c).closed = false ∧ topic ∈ getClientChannels c
          ∧ (getClientChannels c).length ≤ 1)
    ∧ (∀ message : BroadcastMessage, ∃ s2 : HubState,
        broadcast s message = Except.ok s2
        ∧ ∀ c ∈ subscribers s message.Channel, 256 ≤ (s.send c).buf.length →
            (s2.send c).closed = true ∧ ∀ topic, c ∉ subscribers s2 topic) := by
  have hwf := hr.reachable.wf
  have hop := hr.subscribersOpen
  refine ⟨?_, ?_⟩
  · intro topic set c hset hc
    refine ⟨hop topic set c hset hc, (hwf topic set hset).2 c hc, ?_⟩
    rcases getClientChannels_cases c with h | ⟨t, h⟩ <;> simp [h]
  · intro message
    obtain ⟨s2, hs2, hsend, hother, hsubs⟩ := broadcast_send s message
      (subscribers_nodup hwf _)
      (fun c hc => by
        obtain ⟨set, hset, hmem⟩ := mem_subscribers.mp hc
        exact hop _ set c hset hmem)
    refine ⟨s2, hs2, ?_⟩
    intro c hc hfull
    have hnl : ¬ (s.send c).buf.length < 256 := by omega
    refine ⟨by simp [hsend c, hc, hnl], ?_⟩
    intro topic hin
    by_cases ht : topic = message.Channel
    · subst ht
      rw [hsubs, List.mem_filter] at hin
      exact hnl (by simpa using hin.2)
    · obtain ⟨set, hset, hmem⟩ := mem_subscribers.mp hin
      rw [hother topic ht] at hset
      exact ht (getClientChannels_unique ((hwf topic set hset).2 c hmem)
        (subscribers_channel hwf hc))

/-! ## Dispatch of an update -/

theorem broadcast_delivers (s : HubState) (message : BroadcastMessage)
    (hnd : (subscribers s message.Channel).Nodup)
    (hopen : ∀ c ∈ subscribers s message.Channel, (s.send c).closed = false) :
    ∃ s2 : HubState, broadcast s message = Except.ok s2
      ∧ Delivers s s2 message.Channel { event := message.Event, data := message.Data }
      ∧ (∀ topic, topic ≠ message.Channel → s2.clients topic = s.clients topic) := by
  obtain ⟨s2, hs2, hsend, hother, -⟩ := broadcast_send s message hnd hopen
  refine ⟨s2, hs2, ⟨?_, ?_, ?_⟩, hother⟩
  · intro c hc hlen
    simp [hsend c, hc, hlen]
  · intro c hc hfull
    have hnl : ¬ (s.send c).buf.length < 256 := by omega
    simp [hsend c, hc, hnl]
  · intro c hc
    simp [hsend c, hc]

/-- C3, with the status literal of the code and every queue accounted for.
Let the office-wide request of an update carrying package id p be processed in
a reachable hub state whose office-wide subscribers have open queues. It
appends one frame (event "rider.location.updated", the update as data) to
every office-wide subscriber holding fewer than 256 frames, closes without a
frame every office-wide subscriber holding 256, and changes no other queue.
With any status other than "on_the_way" that is the whole dispatch, whatever
the coordinator processes afterwards. With "on_the_way" the package request
follows: after whatever the coordinator processes in between without panic,
if the package topic's subscribers then have open queues, the request does the
same for them (append below 256, close at 256, no other queue changed). The
office-wide request changes neither the package topic's subscribers nor their
queues, so back to back the two requests act on the subscribers and queues of
the start state. -/
theorem dispatchUpdate_delivery (s : HubState) (hr : Reachable s) (update : LocationUpdate)
    (p : Int) (hp : update.PackageID = some p)
    (hopen : ∀ c ∈ subscribers s "office.riders.locations", (s.send c).closed = false) :
    ∃ s1 : HubState,
      broadcast s { Channel := "office.riders.locations", Event := "rider.location.updated",
                    Data := update } = Except.ok s1
      ∧ Delivers s s1 "office.riders.locations"
          { event := "rider.location.updated", data := update }
      ∧ (∀ (status : String) (between : List Op), status ≠ "on_the_way" →
          dispatchUpdate s update status between = Except.ok s1)
      ∧ (∀ (between : List Op) (s2 : HubState), run s1 between = Except.ok s2 →
          (∀ c ∈ subscribers s2 ("merchant.package." ++ intToString p ++ ".location"),
            (s2.send c).closed = false) →
          ∃ s3 : HubState, dispatchUpdate s update "on_the_way" between = Except.ok s3
            ∧ Delivers s2 s3 ("merchant.package." ++ intToString p ++ ".location")
                { event := "rider.location.updated", data := update })
      ∧ subscribers s1 ("merchant.package." ++ intToString p ++ ".location")
          = subscribers s ("merchant.package." ++ intToString p ++ ".location")
      ∧ (∀ c ∈ subscribers s ("merchant.package." ++ intToString p ++ ".location"),
          s1.send c = s.send c)
      ∧ ((∀ c ∈ subscribers s ("merchant.package." ++ intToString p ++ ".location"),
            (s.send c).closed = false) →
          ∃ s3 : HubState, dispatchUpdate s update "on_the_way" [] = Except.ok s3
            ∧ ∀ c, s3.send c =
                if c ∈ subscribers s "office.riders.locations"
                    ∨ c ∈ subscribers s ("merchant.package." ++ intToString p ++ ".location")
                then
                  (if (s.send c).buf.length < 256 then
                    { buf := (s.send c).buf
                        ++ [{ event := "rider.location.updated", data := update }],
                      closed := false }
                   else { buf := (s.send c).buf, closed := true })
                else s.send c) := by
  have hwf := hr.wf
  obtain ⟨s1, h1, hdel1, hother1⟩ := broadcast_delivers s
    { Channel := "office.riders.locations", Event := "rider.location.updated", Data := update }
    (subscribers_nodup hwf _) hopen
  have hr1 : Reachable s1 := Reachable.step (Op.broadcast _) hr h1
  have hsame : subscribers s1 ("merchant.package." ++ intToString p ++ ".location")
      = subscribers s ("merchant.package." ++ intToString p ++ ".location") := by
    unfold subscribers
    rw [hother1 _ (packageTopic_ne_office p)]
  have hdisj : ∀ c, c ∈ subscribers s ("merchant.package." ++ intToString p ++ ".location") →
      c ∉ subscribers s "office.riders.locations" := by
    intro c hc hoff
    exact packageTopic_ne_office p
      (getClientChannels_unique (subscribers_channel hwf hc) (subscribers_channel hwf hoff))
  have hkeep : ∀ c ∈ subscribers s ("merchant.package." ++ intToString p ++ ".location"),
      s1.send c = s.send c := fun c hc => hdel1.2.2 c (hdisj c hc)
  have hsecond : ∀ (between : List Op) (s2 : HubState), run s1 between = Except.ok s2 →
      (∀ c ∈ subscribers s2 ("merchant.package." ++ intToString p ++ ".location"),
        (s2.send c).closed = false) →
      ∃ s3 : HubState, dispatchUpdate s update "on_the_way" between = Except.ok s3
        ∧ Delivers s2 s3 ("merchant.package." ++ intToString p ++ ".location")
            { event := "rider.location.updated", data := update } := by
    intro between s2 hrun hopen2
    have hr2 : Reachable s2 := Reachable.run between hr1 hrun
    obtain ⟨s3, h3, hdel3, -⟩ := broadcast_delivers s2
      { Channel := "merchant.package." ++ intToString p ++ ".location",
        Event := "rider.location.updated", Data := update }
      (subscribers_nodup hr2.wf _) hopen2
    refine ⟨s3, ?_, hdel3⟩
    simp [dispatchUpdate, handleLocationUpdate, hp, processRequests, h1, hrun, h3]
  refine ⟨s1, h1, hdel1, ?_, hsecond, hsame, hkeep, ?_⟩
  · intro status between hst
    simp [dispatchUpdate, handleLocationUpdate, hp, hst, processRequests, h1]
  · intro hopenp
    obtain ⟨s3, h3, hdel3⟩ := hsecond [] s1 rfl (by
      intro c hc
      rw [hsame] at hc
      rw [hkeep c hc]
      exact hopenp c hc)
    refine ⟨s3, h3, ?_⟩
    intro c
    by_cases hpk : c ∈ subscribers s ("merchant.package." ++ intToString p ++ ".location")
    · have hpk1 : c ∈ subscribers s1 ("merchant.package." ++ intToString p ++ ".location") :=
        hsame ▸ hpk
      by_cases hlen : (s.send c).buf.length < 256
      · have := hdel3.1 c hpk1 (by rw [hkeep c hpk]; exact hlen)
        rw [this, hkeep c hpk]
        simp [hpk, hlen]
      · have := hdel3.2.1 c hpk1 (by rw [hkeep c hpk]; omega)
        rw [this, hkeep c hpk]
        simp [hpk, hlen]
    · have hpk1 : c ∉ subscribers s1 ("merchant.package." ++ intToString p ++ ".location") :=
        hsame ▸ hpk
      rw [hdel3.2.2 c hpk1]
      by_cases hoff : c ∈ subscribers s "office.riders.locations"
      · by_cases hlen : (s.send c).buf.length < 256
        · rw [hdel1.1 c hoff hlen]
          simp [hoff, hlen]
        · rw [hdel1.2.1 c hoff (by omega)]
          simp [hoff, hlen]
      · rw [hdel1.2.2 c hoff]
        simp [hoff, hpk]

set_option maxRecDepth 8192 in
/-- C3 at the status "in-transit". With A registered as office staff and B as
merchant 5 watching package 42, both queues empty, B is subscribed to the
topic of package 42, yet the dispatch of the update for package 42 with status
"in-transit" puts one frame in A's queue and none in B's. Besides, an
office-wide subscriber whose queue is full gets no frame from a dispatch,
whatever the status: its queue keeps its 256 frames and is closed. And with
status "on_the_way", when the coordinator processes B's unregister between the
two requests, B gets no frame either. -/
theorem in_transit_reaches_office_only :
    clientB ∈ subscribers hubAB ("merchant.package." ++ intToString 42 ++ ".location")
    ∧ queueAfter (dispatchUpdate hubAB update42 "in-transit" []) clientA
        = some (1, ["rider.location.updated"], false)
    ∧ queueAfter (dispatchUpdate hubAB update42 "in-transit" []) clientB
        = some (0, [], false)
    ∧ clientA ∈ subscribers hubFull "office.riders.locations"
    ∧ (queueAfter (dispatchUpdate hubFull update42 "on_the_way" []) clientA).map
          (fun q => (q.1, q.2.2))
        = some (256, true)
    ∧ (queueAfter (dispatchUpdate hubFull update42 "delivered" []) clientA).map
          (fun q => (q.1, q.2.2))
        = some (256, true)
    ∧ queueAfter (dispatchUpdate hubAB update42 "on_the_way" [Op.unregister clientB]) clientB
        = some (0, [], true) := by
  refine ⟨by decide, by decide, by decide, by decide, by decide, by decide, by decide⟩

/-! ## Instances on the concrete scenario -/

/-- Instance of C3 with "on_the_way", on the scenario with A and B: processed
back to back, the two requests leave exactly one frame with event
"rider.location.updated" in each queue; with status "delivered" B's queue
stays empty. -/
theorem dispatchUpdate_delivery_scenario :
    Reachable hubAB ∧ update42.PackageID = some 42
    ∧ (∀ c ∈ subscribers hubAB "office.riders.locations", (hubAB.send c).closed = false)
    ∧ (∃ s1 : HubState,
        broadcast hubAB { Channel := "office.riders.locations",
                          Event := "rider.location.updated", Data := update42 } = Except.ok s1
        ∧ Delivers hubAB s1 "office.riders.locations"
            { event := "rider.location.updated", data := update42 }
        ∧ (∀ (status : String) (between : List Op), status ≠ "on_the_way" →
            dispatchUpdate hubAB update42 status between = Except.ok s1)
        ∧ (∀ (between : List Op) (s2 : HubState), run s1 between = Except.ok s2 →
            (∀ c ∈ subscribers s2 ("merchant.package." ++ intToString 42 ++ ".location"),
              (s2.send c).closed = false) →
            ∃ s3 : HubState, dispatchUpdate hubAB update42 "on_the_way" between = Except.ok s3
              ∧ Delivers s2 s3 ("merchant.package." ++ intToString 42 ++ ".location")
                  { event := "rider.location.updated", data := update42 })
        ∧ subscribers s1 ("merchant.package." ++ intToString 42 ++ ".location")
            = subscribers hubAB ("merchant.package." ++ intToString 42 ++ ".location")
        ∧ (∀ c ∈ subscribers hubAB ("merchant.package." ++ intToString 42 ++ ".location"),
            s1.send c = hubAB.send c)
        ∧ ((∀ c ∈ subscribers hubAB ("merchant.package." ++ intToString 42 ++ ".location"),
              (hubAB.send c).closed = false) →
            ∃ s3 : HubState, dispatchUpdate hubAB update42 "on_the_way" [] = Except.ok s3
              ∧ ∀ c, s3.send c =
                  if c ∈ subscribers hubAB "office.riders.locations"
                      ∨ c ∈ subscribers hubAB
                          ("merchant.package." ++ intToString 42 ++ ".location")
                  then
                    (if (hubAB.send c).buf.length < 256 then
                      { buf := (hubAB.send c).buf
                          ++ [{ event := "rider.location.updated", data := update42 }],
                        closed := false }
                     else { buf := (hubAB.send c).buf, closed := true })
                  else hubAB.send c))
    ∧ subscribers hubAB "office.riders.locations" = [clientA]
    ∧ subscribers hubAB ("merchant.package." ++ intToString 42 ++ ".location") = [clientB]
    ∧ queueAfter (dispatchUpdate hubAB update42 "on_the_way" []) clientA
        = some (1, ["rider.location.updated"], false)
    ∧ queueAfter (dispatchUpdate hubAB update42 "on_the_way" []) clientB
        = some (1, ["rider.location.updated"], false)
    ∧ queueAfter (dispatchUpdate hubAB update42 "delivered" []) clientA
        = some (1, ["rider.location.updated"], false)
    ∧ queueAfter (dispatchUpdate hubAB update42 "delivered" []) clientB
        = some (0, [], false) :=
  ⟨Reachable.step (Op.register clientB)
      (Reachable.step (Op.register clientA) Reachable.init rfl) rfl,
    rfl,
    fun _ _ => rfl,
    dispatchUpdate_delivery hubAB
      (Reachable.step (Op.register clientB)
        (Reachable.step (Op.register clientA) Reachable.init rfl) rfl)
      update42 42 rfl (fun _ _ => rfl),
    by decide, by decide, by decide, by decide, by decide, by decide⟩

set_option maxRecDepth 8192 in
/-- Instance of C4: A (queue full) and C (queue empty) subscribed to the
office-wide topic; one broadcast evicts A and still delivers to C. -/
theorem broadcast_delivery_scenario :
    (subscribers hubFull officeRequest42.Channel).Nodup
    ∧ (∀ c ∈ subscribers hubFull officeRequest42.Channel, (hubFull.send c).closed = false)
    ∧ (∃ s2 : HubState, broadcast hubFull officeRequest42 = Except.ok s2
        ∧ (∀ c ∈ subscribers hubFull officeRequest42.Channel,
            (hubFull.send c).buf.length < 256 →
            s2.send c = { buf := (hubFull.send c).buf
                            ++ [{ event := officeRequest42.Event,
                                  data := officeRequest42.Data }],
                          closed := false }
            ∧ c ∈ subscribers s2 officeRequest42.Channel)
        ∧ (∀ c ∈ subscribers hubFull officeRequest42.Channel,
            256 ≤ (hubFull.send c).buf.length →
            s2.send c = { buf := (hubFull.send c).buf, closed := true }
            ∧ c ∉ subscribers s2 officeRequest42.Channel)
        ∧ subscribers s2 officeRequest42.Channel
            = (subscribers hubFull officeRequest42.Channel).filter
                (fun c => decide ((hubFull.send c).buf.length < 256))
        ∧ (∀ topic, topic ≠ officeRequest42.Channel →
            s2.clients topic = hubFull.clients topic)
        ∧ (∀ c, c ∉ subscribers hubFull officeRequest42.Channel →
            s2.send c = hubFull.send c))
    ∧ subscribers hubFull "office.riders.locations" = [clientA, clientC]
    ∧ entryAfter (broadcast hubFull officeRequest42) "office.riders.locations"
        = some (some [clientC])
    ∧ queueAfter (broadcast hubFull officeRequest42) clientC
        = some (1, ["rider.location.updated"], false)
    ∧ (queueAfter (broadcast hubFull officeRequest42) clientA).map (fun q => (q.1, q.2.2))
        = some (256, true) :=
  ⟨by decide, by decide,
    broadcast_delivery hubFull officeRequest42 (by decide) (by decide),
    by decide, by decide, by decide, by decide⟩

/-- Instance of C5: unregistering A in the hub where A and B are registered. -/
theorem unregister_removes_scenario :
    Reachable hubAB ∧ (hubAB.send clientA).closed = false
    ∧ ∃ s2 : HubState, unregister hubAB clientA = Except.ok s2
      ∧ (∀ topic, clientA ∉ subscribers s2 topic)
      ∧ (∀ topic, hubAB.clients topic = some [clientA] →
          s2.clients topic = none
          ∧ ∀ event data,
              broadcast s2 { Channel := topic, Event := event, Data := data } = Except.ok s2)
      ∧ (∀ topic set, hubAB.clients topic = some set → (∃ x ∈ set, x ≠ clientA) →
          s2.clients topic = some (set.filter (fun x => decide (x ≠ clientA))))
      ∧ (∀ topic, hubAB.clients topic = none → s2.clients topic = none)
      ∧ (∀ topic, subscribers s2 topic
          = (subscribers hubAB topic).filter (fun x => decide (x ≠ clientA)))
      ∧ s2.send clientA = { buf := (hubAB.send clientA).buf, closed := true }
      ∧ (∀ x, x ≠ clientA → s2.send x = hubAB.send x) :=
  ⟨Reachable.step (Op.register clientB)
      (Reachable.step (Op.register clientA) Reachable.init rfl) rfl,
    rfl,
    unregister_removes hubAB clientA
      (Reachable.step (Op.register clientB)
        (Reachable.step (Op.register clientA) Reachable.init rfl) rfl)
      rfl⟩

/-- Instance of C8: a broadcast to a package topic on the empty hub. -/
theorem broadcast_no_subscribers_scenario :
    (newHub.clients "merchant.package.7.location" = none
      ∨ newHub.clients "merchant.package.7.location" = some [])
    ∧ broadcast newHub { Channel := "merchant.package.7.location",
                         Event := "rider.location.updated", Data := update42 }
        = Except.ok newHub :=
  ⟨Or.inl rfl,
    broadcast_no_subscribers newHub
      { Channel := "merchant.package.7.location", Event := "rider.location.updated",
        Data := update42 }
      (Or.inl rfl)⟩

theorem ReachableOpen.broadcasts {s s2 : HubState} (messages : List BroadcastMessage)
    (h : ReachableOpen s)
    (hs : LocationTracker.run s (messages.map Op.broadcast) = Except.ok s2) :
    ReachableOpen s2 := by
  induction messages generalizing s with
  | nil =>
    simp only [List.map_nil, LocationTracker.run, Except.ok.injEq] at hs
    exact hs ▸ h
  | cons message rest ih =>
    simp only [List.map_cons, LocationTracker.run, step] at hs
    cases hb : LocationTracker.broadcast s message with
    | error e => simp [hb] at hs
    | ok s1 =>
      simp only [hb] at hs
      exact ih (ReachableOpen.broadcast message h hb) hs

theorem hubFilled_reachableOpen : ReachableOpen hubFilled := by
  have hAB : ReachableOpen hubAB :=
    ReachableOpen.register clientB (ReachableOpen.register clientA ReachableOpen.init rfl) rfl
  unfold hubFilled
  cases hrun : run hubAB ((List.replicate 256 officeRequest42).map Op.broadcast) with
  | error e => exact hAB
  | ok s => exact ReachableOpen.broadcasts _ hAB hrun

set_option maxRecDepth 8192 in
/-- Instance of C9: after A and B registered and 256 office-wide broadcasts,
A is subscribed with a full, open queue; the next broadcast evicts it. -/
theorem dispatch_never_hits_closed_scenario :
    ReachableOpen hubFilled
    ∧ ((∀ topic set c, hubFilled.clients topic = some set → c ∈ set →
          (hubFilled.send c).closed = false ∧ topic ∈ getClientChannels c
            ∧ (getClientChannels c).length ≤ 1)
      ∧ (∀ message : BroadcastMessage, ∃ s2 : HubState,
          broadcast hubFilled message = Except.ok s2
          ∧ ∀ c ∈ subscribers hubFilled message.Channel,
              256 ≤ (hubFilled.send c).buf.length →
              (s2.send c).closed = true ∧ ∀ topic, c ∉ subscribers s2 topic))
    ∧ subscribers hubFilled "office.riders.locations" = [clientA]
    ∧ (hubFilled.send clientA).buf.length = 256 :=
  ⟨hubFilled_reachableOpen, dispatch_never_hits_closed hubFilled hubFilled_reachableOpen,
    by decide, by decide⟩

end LocationTracker
